import Mathlib

/-!
# Verification of the ark-plonk composer/preprocessing/verifier glue

A shallow embedding of the constraint-system preprocessing and the circuit
compile/verify glue of the `ark-plonk` repository
(`src/proof_system/preprocess.rs`, `src/proof_system/verifier.rs`,
`src/circuit.rs`), together with theorems settling the frozen claims about
the natural-language specification.

Polynomials are modelled as coefficient lists (mirroring arkworks'
`DensePolynomial { coeffs: Vec<F> }`); machine collaborators that are
external to the repository (FFT engine, KZG commitment, permutation-sigma
construction, transcript hashing) are abstracted as explicit function
parameters gathered in `ExtOps`.
-/

namespace ArkPlonk

/-! ## Dense polynomials as coefficient lists -/

/-- Evaluation of a coefficient list `[a0, a1, ...]` at `x`:
`a0 + a1*x + a2*x^2 + ...` (Horner form). -/
def polyEval {F : Type} [CommRing F] (p : List F) (x : F) : F :=
  match p with
  | [] => 0
  | a :: t => a + x * polyEval t x

/-- Coefficient-wise addition of dense polynomials (arkworks `Add` on
`DensePolynomial`): the shorter list is implicitly zero-padded. -/
def polyAdd {F : Type} [CommRing F] : List F → List F → List F
  | [], q => q
  | p, [] => p
  | a :: p, b :: q => (a + b) :: polyAdd p q

/-- Scalar multiple of a dense polynomial. -/
def polySmul {F : Type} [CommRing F] (c : F) (p : List F) : List F :=
  p.map (fun a => c * a)

/-- Product of dense polynomials (arkworks `Mul` on `DensePolynomial`),
written as the standard convolution recursion. -/
def polyMul {F : Type} [CommRing F] : List F → List F → List F
  | [], _ => []
  | a :: p, q => polyAdd (polySmul a q) ((0 : F) :: polyMul p q)

/-- Coefficients of the vanishing polynomial `X^n - 1` (for `n ≥ 1`), as
built in `add_blinder` from
`SparsePolynomial::from_coefficients_slice(&[(0, -F::one()), (n, F::one())])`. -/
def zHCoeffs {F : Type} [CommRing F] (n : Nat) : List F :=
  (-1 : F) :: (List.replicate (n - 1) (0 : F) ++ [(1 : F)])

/-- `add_blinder` (preprocess.rs): adds to `polynomial` a blinder term of
the form `(hiding_coef[0] + hiding_coef[1] X) * Z_H` where `Z_H = X^n - 1`
is the vanishing polynomial. -/
def add_blinder {F : Type} [CommRing F] (polynomial : List F) (n : Nat)
    (hiding_coef : F × F) : List F :=
  let z_h := zHCoeffs (F := F) n
  let rand_poly := [hiding_coef.1, hiding_coef.2]
  let blinder_poly := polyMul rand_poly z_h
  polyAdd polynomial blinder_poly

/-! ## The Composer (constraint-system accumulator)

The `StandardComposer` struct itself is declared in `constraint_system`
(outside the visible sources); its columnar fields are modelled from the
spec's data model (§3) and from the fields that `pad` and
`check_poly_same_len` in `preprocess.rs` read and write: 11 selector
columns of field elements, 4 wire columns of `Variable` handles (small
integer indices), the gate count `n`, the designated zero variable, the
public-input positions, and the permutation (copy-constraint) structure,
the latter two carried opaquely since no visible code inspects them. -/

/-- A Variable handle: a small integer index (spec §3). -/
abbrev Var : Type := Nat

/-- Modelled from the spec: the `StandardComposer` state, restricted to the
fields the visible code touches. The permutation structure is kept as an
opaque build-once index from Variables to (wire-column, row) occurrence
lists (spec §3/§9). -/
structure Composer (F : Type) where
  q_m : List F
  q_l : List F
  q_r : List F
  q_o : List F
  q_c : List F
  q_4 : List F
  q_arith : List F
  q_range : List F
  q_logic : List F
  q_fixed_group_add : List F
  q_variable_group_add : List F
  w_l : List Var
  w_r : List Var
  w_o : List Var
  w_4 : List Var
  n : Nat
  zero_var : Var
  pi_pos : List Nat
  perm : List (Var × List (Nat × Nat))
  deriving DecidableEq, Repr

/-- `circuit_size()` (spec §4.1): the current gate count `n`. -/
def Composer.circuit_size {F : Type} (c : Composer F) : Nat := c.n

/-- `pad` (preprocess.rs:58-84): extends every selector column with `diff`
zero scalars, every wire column with `diff` copies of the zero variable,
and increases `n` by `diff`. -/
def pad {F : Type} [CommRing F] (c : Composer F) (diff : Nat) : Composer F :=
  let zero_scalar : F := 0
  let zero_var := c.zero_var
  let zeroes_scalar := List.replicate diff zero_scalar
  let zeroes_var := List.replicate diff zero_var
  { c with
    q_m := c.q_m ++ zeroes_scalar
    q_l := c.q_l ++ zeroes_scalar
    q_r := c.q_r ++ zeroes_scalar
    q_o := c.q_o ++ zeroes_scalar
    q_c := c.q_c ++ zeroes_scalar
    q_4 := c.q_4 ++ zeroes_scalar
    q_arith := c.q_arith ++ zeroes_scalar
    q_range := c.q_range ++ zeroes_scalar
    q_logic := c.q_logic ++ zeroes_scalar
    q_fixed_group_add := c.q_fixed_group_add ++ zeroes_scalar
    q_variable_group_add := c.q_variable_group_add ++ zeroes_scalar
    w_l := c.w_l ++ zeroes_var
    w_r := c.w_r ++ zeroes_var
    w_o := c.w_o ++ zeroes_var
    w_4 := c.w_4 ++ zeroes_var
    n := c.n + diff }

/-- The error kinds surfaced by the visible code: the structural
`MismatchedPolyLen` invariant violation and propagated commitment-scheme
errors (`Error::from(kzg error)` via `?` in `preprocess_shared`). -/
inductive PErr : Type
  | MismatchedPolyLen : PErr
  | PCError : PErr
  deriving DecidableEq, Repr

/-- `check_poly_same_len` (preprocess.rs:88-110): compares the length of
each of the other 14 columns against `k`, the length of `q_m`
(written out inline here). -/
def check_poly_same_len {F : Type} (c : Composer F) : Except PErr Unit :=
  if c.q_o.length = c.q_m.length ∧ c.q_l.length = c.q_m.length
      ∧ c.q_r.length = c.q_m.length ∧ c.q_c.length = c.q_m.length
      ∧ c.q_4.length = c.q_m.length ∧ c.q_arith.length = c.q_m.length
      ∧ c.q_range.length = c.q_m.length ∧ c.q_logic.length = c.q_m.length
      ∧ c.q_fixed_group_add.length = c.q_m.length
      ∧ c.q_variable_group_add.length = c.q_m.length
      ∧ c.w_l.length = c.q_m.length ∧ c.w_r.length = c.q_m.length
      ∧ c.w_o.length = c.q_m.length ∧ c.w_4.length = c.q_m.length
  then Except.ok ()
  else Except.error PErr.MismatchedPolyLen

/-- The lengths of all 15 columns (11 selectors then 4 wires), in the
order the claims list them. -/
def colLens {F : Type} (c : Composer F) : List Nat :=
  [c.q_m.length, c.q_l.length, c.q_r.length, c.q_o.length, c.q_c.length,
   c.q_4.length, c.q_arith.length, c.q_range.length, c.q_logic.length,
   c.q_fixed_group_add.length, c.q_variable_group_add.length,
   c.w_l.length, c.w_r.length, c.w_o.length, c.w_4.length]

/-- Doubling search for the next power of two: starting from `acc` (a
power of two), double until at least `m`; `fuel` bounds the recursion
(`m` steps always suffice since `2^m ≥ m`). -/
def domSizeGo (m : Nat) : Nat → Nat → Nat
  | 0, acc => acc
  | fuel + 1, acc => if m ≤ acc then acc else domSizeGo m fuel (2 * acc)

/-- The size of `GeneralEvaluationDomain::new(m)`: the next power of two
at or above `m` (the radix-2 FFT domain of arkworks). -/
def domSize (m : Nat) : Nat := domSizeGo m m 1

/-- `compute_vanishing_poly_over_coset` (preprocess.rs:454-477): the `size`
evaluations of the degree-`poly_degree` vanishing polynomial over the coset
`mult_gen * ⟨group_gen⟩`, computed in closed form as
`mult_gen^d * group_gen^(d*i) - 1`. The source `assert!`s that the domain
size strictly exceeds `poly_degree`; the panic is modelled as `none`. -/
def compute_vanishing_poly_over_coset {F : Type} [CommRing F]
    (size : Nat) (group_gen mult_gen : F) (poly_degree : Nat) :
    Option (List F) :=
  if poly_degree < size then
    some ((List.range size).map fun i =>
      mult_gen ^ poly_degree * group_gen ^ (poly_degree * i) - 1)
  else
    none

/-! ## Blinding randomness (circuit.rs) -/

/-- `BlindingRandomness` (circuit.rs:158-164): 11 pairs of field elements,
one pair per selector polynomial (`r: [[F; 2]; 11]`). -/
structure BlindingRandomness (F : Type) where
  r : List (F × F)
  deriving DecidableEq, Repr

/-- `BlindingRandomness::default()`: all 22 scalars at the additive
identity (derived `Default` on `[[F; 2]; 11]`). -/
def BlindingRandomness.zero {F : Type} [CommRing F] : BlindingRandomness F :=
  ⟨List.replicate 11 ((0 : F), (0 : F))⟩

/-- `BlindingRandomness::new()` (circuit.rs:170-174): built by the Rust
array-repeat expression `[[F::rand(&mut OsRng); 2]; 11]`, whose element
expression is evaluated once and then copied. The ambient random source is
modelled as a stream `Nat → F` with a cursor: `rand` reads the element at
the cursor and advances it, and the returned cursor records how many
elements were drawn. -/
def BlindingRandomness.new {F : Type} (stream : Nat → F) (cursor : Nat) :
    BlindingRandomness F × Nat :=
  let v := stream cursor
  (⟨List.replicate 11 (v, v)⟩, cursor + 1)

/-! ## build_pi (circuit.rs:481-499) -/

/-- `build_pi` (circuit.rs): scatters the flattened public-input values,
negated, into a dense zero vector of length `trim_size` at the recorded
positions. The Rust `pi[pos] = -value` indexing panics when
`pos >= trim_size`; the panic is modelled as `none`. Each
`PublicInputValue` is its list of field values, and `flat_map` is
`List.flatten`. -/
def build_pi {F : Type} [CommRing F] (pub_input_values : List (List F))
    (pub_input_pos : List Nat) (trim_size : Nat) : Option (List F) :=
  ((pub_input_values.flatten).zip pub_input_pos).foldlM
    (fun pi vp =>
      if vp.2 < pi.length then some (pi.set vp.2 (-vp.1)) else none)
    (List.replicate trim_size (0 : F))

/-! ## Preprocessing (preprocess.rs)

The external collaborators the preprocessing calls into — the FFT engine
(`domain.ifft`, `domain_8n.coset_fft`), the permutation-sigma construction
(`perm.compute_sigma_polynomials`), the KZG commitment (`KZG10::commit`
under a commit key) and the field's generators — are outside the core
(spec §1 OUT OF SCOPE) and are modelled as explicit function parameters
gathered in `ExtOps`. A failing commitment is `none` (the source
propagates it with `?`). -/

structure ExtOps (F C : Type) where
  ifft : Nat → List F → List F
  cosetFft : Nat → List F → List F
  computeSigmas : List (Var × List (Nat × Nat)) → Nat → Nat →
    List F × List F × List F × List F
  commit : List F → Option C
  multGen : F
  groupGen : Nat → F

/-- `widget::VerifierKey`: the padded circuit size plus one commitment per
selector/sigma polynomial (spec §3). The struct itself lives outside the
visible sources; its fields follow the argument list of
`VerifierKey::from_polynomial_commitments` in `preprocess_shared`. -/
structure VKey (C : Type) where
  n : Nat
  q_m : C
  q_l : C
  q_r : C
  q_o : C
  q_4 : C
  q_c : C
  q_arith : C
  q_range : C
  q_logic : C
  q_fixed_group_add : C
  q_variable_group_add : C
  left_sigma : C
  right_sigma : C
  out_sigma : C
  fourth_sigma : C
  deriving DecidableEq, Repr

/-- `SelectorPolynomials` (preprocess.rs:28-47): the 11 blinded selector
polynomials and the 4 sigma polynomials. -/
structure Selectors (F : Type) where
  q_m : List F
  q_l : List F
  q_r : List F
  q_o : List F
  q_c : List F
  q_4 : List F
  q_arith : List F
  q_range : List F
  q_logic : List F
  q_fixed_group_add : List F
  q_variable_group_add : List F
  left_sigma : List F
  right_sigma : List F
  out_sigma : List F
  fourth_sigma : List F
  deriving DecidableEq, Repr

/-- Modelled from the spec: `VerifierKey::seed_transcript` (step (8) of
§4.2, "absorb every commitment into the transcript") absorbs the 15
commitments into the transcript, modelled as a log of absorbed
commitments. -/
def seedTranscript {C : Type} (vk : VKey C) (transcript : List C) : List C :=
  transcript ++
    [vk.q_m, vk.q_l, vk.q_r, vk.q_o, vk.q_4, vk.q_c, vk.q_arith,
     vk.q_range, vk.q_logic, vk.q_fixed_group_add, vk.q_variable_group_add,
     vk.left_sigma, vk.right_sigma, vk.out_sigma, vk.fourth_sigma]

/-- Look up the `i`-th blinding pair `br.r[i]`. -/
def BlindingRandomness.get {F : Type} [CommRing F]
    (br : BlindingRandomness F) (i : Nat) : F × F :=
  br.r.getD i ((0 : F), (0 : F))

/-- `preprocess_shared` (preprocess.rs:239-448), as a state-passing
function over the composer and the transcript. Steps in source order:
build the FFT domain from `circuit_size()`; run `check_poly_same_len`
(returning `MismatchedPolyLen` before any mutation on failure); pad to the
domain size; inverse-FFT every selector column; blind each selector
polynomial with its pair from `br` via `add_blinder`; derive the sigma
polynomials; commit to all 15 polynomials (propagating commitment
failure); assemble the `VerifierKey` and seed the transcript with it. -/
def preprocess_shared {F C : Type} [CommRing F] (ext : ExtOps F C)
    (c : Composer F) (transcript : List C) (br : BlindingRandomness F) :
    Except PErr (VKey C × Selectors F × Nat) × Composer F × List C :=
  let d := domSize c.circuit_size
  match check_poly_same_len c with
  | Except.error e => (Except.error e, c, transcript)
  | Except.ok _ =>
    let c1 := pad c (d - c.n)
    let q_m_poly := add_blinder (ext.ifft d c1.q_m) c1.n (br.get 0)
    let q_l_poly := add_blinder (ext.ifft d c1.q_l) c1.n (br.get 1)
    let q_r_poly := add_blinder (ext.ifft d c1.q_r) c1.n (br.get 2)
    let q_o_poly := add_blinder (ext.ifft d c1.q_o) c1.n (br.get 3)
    let q_c_poly := add_blinder (ext.ifft d c1.q_c) c1.n (br.get 4)
    let q_4_poly := add_blinder (ext.ifft d c1.q_4) c1.n (br.get 5)
    let q_arith_poly := add_blinder (ext.ifft d c1.q_arith) c1.n (br.get 6)
    let q_range_poly := add_blinder (ext.ifft d c1.q_range) c1.n (br.get 7)
    let q_logic_poly := add_blinder (ext.ifft d c1.q_logic) c1.n (br.get 8)
    let q_fixed_group_add_poly :=
      add_blinder (ext.ifft d c1.q_fixed_group_add) c1.n (br.get 9)
    let q_variable_group_add_poly :=
      add_blinder (ext.ifft d c1.q_variable_group_add) c1.n (br.get 10)
    let sigmas := ext.computeSigmas c1.perm c1.n d
    let left_sigma_poly := sigmas.1
    let right_sigma_poly := sigmas.2.1
    let out_sigma_poly := sigmas.2.2.1
    let fourth_sigma_poly := sigmas.2.2.2
    let committed : Option (VKey C) := do
      let q_m_poly_commit ← ext.commit q_m_poly
      let q_l_poly_commit ← ext.commit q_l_poly
      let q_r_poly_commit ← ext.commit q_r_poly
      let q_o_poly_commit ← ext.commit q_o_poly
      let q_c_poly_commit ← ext.commit q_c_poly
      let q_4_poly_commit ← ext.commit q_4_poly
      let q_arith_poly_commit ← ext.commit q_arith_poly
      let q_range_poly_commit ← ext.commit q_range_poly
      let q_logic_poly_commit ← ext.commit q_logic_poly
      let q_fixed_group_add_poly_commit ← ext.commit q_fixed_group_add_poly
      let q_variable_group_add_poly_commit ←
        ext.commit q_variable_group_add_poly
      let left_sigma_poly_commit ← ext.commit left_sigma_poly
      let right_sigma_poly_commit ← ext.commit right_sigma_poly
      let out_sigma_poly_commit ← ext.commit out_sigma_poly
      let fourth_sigma_poly_commit ← ext.commit fourth_sigma_poly
      pure
        { n := c1.circuit_size
          q_m := q_m_poly_commit
          q_l := q_l_poly_commit
          q_r := q_r_poly_commit
          q_o := q_o_poly_commit
          q_4 := q_4_poly_commit
          q_c := q_c_poly_commit
          q_arith := q_arith_poly_commit
          q_range := q_range_poly_commit
          q_logic := q_logic_poly_commit
          q_fixed_group_add := q_fixed_group_add_poly_commit
          q_variable_group_add := q_variable_group_add_poly_commit
          left_sigma := left_sigma_poly_commit
          right_sigma := right_sigma_poly_commit
          out_sigma := out_sigma_poly_commit
          fourth_sigma := fourth_sigma_poly_commit }
    match committed with
    | none => (Except.error PErr.PCError, c1, transcript)
    | some verifier_key =>
      let selectors : Selectors F :=
        { q_m := q_m_poly
          q_l := q_l_poly
          q_r := q_r_poly
          q_o := q_o_poly
          q_c := q_c_poly
          q_4 := q_4_poly
          q_arith := q_arith_poly
          q_range := q_range_poly
          q_logic := q_logic_poly
          q_fixed_group_add := q_fixed_group_add_poly
          q_variable_group_add := q_variable_group_add_poly
          left_sigma := left_sigma_poly
          right_sigma := right_sigma_poly
          out_sigma := out_sigma_poly
          fourth_sigma := fourth_sigma_poly }
      (Except.ok (verifier_key, selectors, d), c1,
        seedTranscript verifier_key transcript)

/-- `ProverKey` contents the prover-side preprocessing assembles
(preprocess.rs:198-217): the domain size, the 15 polynomials with their
8n-coset evaluations, the linear-polynomial coset evaluation, and the
vanishing polynomial's coset evaluations. -/
structure PKey (F : Type) where
  n : Nat
  polys : Selectors F
  evals_8n : List (List F)
  linear_eval_8n : List F
  v_h_coset_8n : Option (List F)
  deriving DecidableEq, Repr

/-- `preprocess_prover` (preprocess.rs:116-218): runs the shared step, then
coset-FFTs every selector/sigma polynomial over the 8n domain and
assembles the `ProverKey`; the transcript is only touched inside the
shared step. -/
def preprocess_prover {F C : Type} [CommRing F] (ext : ExtOps F C)
    (c : Composer F) (transcript : List C) (br : BlindingRandomness F) :
    Except PErr (PKey F) × Composer F × List C :=
  match preprocess_shared ext c transcript br with
  | (Except.error e, c', tr') => (Except.error e, c', tr')
  | (Except.ok (_, selectors, d), c', tr') =>
    let d8 := 8 * d
    let pk : PKey F :=
      { n := d
        polys := selectors
        evals_8n :=
          [ext.cosetFft d8 selectors.q_m, ext.cosetFft d8 selectors.q_l,
           ext.cosetFft d8 selectors.q_r, ext.cosetFft d8 selectors.q_o,
           ext.cosetFft d8 selectors.q_c, ext.cosetFft d8 selectors.q_4,
           ext.cosetFft d8 selectors.q_arith,
           ext.cosetFft d8 selectors.q_range,
           ext.cosetFft d8 selectors.q_logic,
           ext.cosetFft d8 selectors.q_fixed_group_add,
           ext.cosetFft d8 selectors.q_variable_group_add,
           ext.cosetFft d8 selectors.left_sigma,
           ext.cosetFft d8 selectors.right_sigma,
           ext.cosetFft d8 selectors.out_sigma,
           ext.cosetFft d8 selectors.fourth_sigma]
        linear_eval_8n := ext.cosetFft d8 [(0 : F), (1 : F)]
        v_h_coset_8n :=
          compute_vanishing_poly_over_coset d8 (ext.groupGen d8)
            ext.multGen d }
    (Except.ok pk, c', tr')

/-- `preprocess_verifier` (preprocess.rs:223-232): runs the shared step
and keeps only the `VerifierKey`. -/
def preprocess_verifier {F C : Type} [CommRing F] (ext : ExtOps F C)
    (c : Composer F) (transcript : List C) (br : BlindingRandomness F) :
    Except PErr (VKey C) × Composer F × List C :=
  match preprocess_shared ext c transcript br with
  | (Except.error e, c', tr') => (Except.error e, c', tr')
  | (Except.ok (verifier_key, _, _), c', tr') =>
    (Except.ok verifier_key, c', tr')

/-! ## Compile / prove / verify glue (circuit.rs) -/

/-- The observable outcome of an entry point whose body may `panic!` (via
`.unwrap()` or out-of-bounds indexing) in addition to returning a typed
`Result`. -/
inductive POut (α : Type) : Type
  | ok (a : α) : POut α
  | err (e : PErr) : POut α
  | panicked : POut α
  deriving DecidableEq, Repr

/-- Modelled from the spec: `SonicKZG10::trim` of the external commitment
scheme, called with `supported_degree = padded_circuit_size + 6`; the
universal parameters "must be at least `padded_circuit_size + 6` elements
or trimming fails" (spec §6). `uSize` is the element count of the
universal parameters; the trimmed powers are abstracted to the supported
degree. -/
def trim_powers (uSize degree : Nat) : Except Unit Nat :=
  if degree ≤ uSize then Except.ok degree else Except.error ()

/-- Modelled from the spec: `StandardComposer::new()` — the fresh composer
a `Prover::new`/`Verifier::new` starts from (all columns empty; outside
the visible sources). -/
def Composer.new {F : Type} : Composer F :=
  { q_m := [], q_l := [], q_r := [], q_o := [], q_c := [], q_4 := []
    q_arith := [], q_range := [], q_logic := [], q_fixed_group_add := []
    q_variable_group_add := [], w_l := [], w_r := [], w_o := [], w_4 := []
    n := 0, zero_var := 0, pi_pos := [], perm := [] }

/-- `Circuit::compile_wbr` (circuit.rs:353-397): trims the universal
parameters to `padded_circuit_size + 6` — **unwrapping** the trim result,
so a too-small setup panics — then runs the gadget into a fresh prover
composer, preprocesses it, runs the gadget again into a fresh verifier
composer and preprocesses that, returning the `ProverKey` and the
`VerifierKey` paired with the public-input positions. The gadget is the
caller-supplied circuit description. -/
def compile_wbr {F C : Type} [CommRing F] (ext : ExtOps F C)
    (uSize padded_circuit_size : Nat)
    (gadget : Composer F → Except PErr (Composer F))
    (br : BlindingRandomness F) :
    POut (PKey F × VKey C × List Nat) :=
  match trim_powers uSize (padded_circuit_size + 6) with
  | Except.error _ => POut.panicked
  | Except.ok _powers =>
    match gadget Composer.new with
    | Except.error e => POut.err e
    | Except.ok cp =>
      let pi_pos := cp.pi_pos
      match (preprocess_prover ext cp [] br).1 with
      | Except.error e => POut.err e
      | Except.ok pk =>
        match gadget Composer.new with
        | Except.error e => POut.err e
        | Except.ok cv =>
          match (preprocess_verifier ext cv [] br).1 with
          | Except.error e => POut.err e
          | Except.ok vk => POut.ok (pk, vk, pi_pos)

/-- `Circuit::compile` (circuit.rs:342-348): `compile_wbr` with the
default (all-zero) blinding randomness. -/
def compile {F C : Type} [CommRing F] (ext : ExtOps F C)
    (uSize padded_circuit_size : Nat)
    (gadget : Composer F → Except PErr (Composer F)) :
    POut (PKey F × VKey C × List Nat) :=
  compile_wbr ext uSize padded_circuit_size gadget BlindingRandomness.zero

/-- `Circuit::gen_proof` (circuit.rs:401-430): trims the universal
parameters to `padded_circuit_size + 6` — again unwrapping, so a
too-small setup panics — then fills a fresh prover composer via the
gadget and runs the proving rounds. The prover proper (`prover.rs`) is
outside the visible sources and is abstracted as the continuation
`prove`, invoked with the trimmed powers. -/
def gen_proof {α : Type} (uSize padded_circuit_size : Nat)
    (prove : Nat → POut α) : POut α :=
  match trim_powers uSize (padded_circuit_size + 6) with
  | Except.error _ => POut.panicked
  | Except.ok powers => prove powers

/-- `verify_proof` (circuit.rs:438-478): trims the universal parameters to
`padded_circuit_size + 6` for the verifier key's padded circuit size —
unwrapping, so a too-small setup panics — builds the dense public-input
vector with `build_pi` at `trim_size = padded_circuit_size` (panicking on
an out-of-bounds position), and delegates to `Verifier::verify`
(outside the visible sources), abstracted as `verify`. -/
def verify_proof {F : Type} [CommRing F] (uSize : Nat)
    (vk_padded_circuit_size : Nat) (pub_inputs_values : List (List F))
    (pub_inputs_positions : List Nat)
    (verify : List F → Except PErr Unit) : POut Unit :=
  match trim_powers uSize (vk_padded_circuit_size + 6) with
  | Except.error _ => POut.panicked
  | Except.ok _vk =>
    match build_pi pub_inputs_values pub_inputs_positions
        vk_padded_circuit_size with
    | none => POut.panicked
    | some pi =>
      match verify pi with
      | Except.ok _ => POut.ok ()
      | Except.error e => POut.err e

/-- The pad step performed inside `preprocess_shared` (preprocess.rs:258):
`self.pad(domain.size() - self.n)` with the domain built from
`circuit_size()`. -/
def pad_step {F : Type} [CommRing F] (c : Composer F) : Composer F :=
  pad c (domSize c.circuit_size - c.n)

/-! ## Concrete instances used by the witness theorems -/

/-- A concrete external-collaborator instance over `ZMod 7` with `Nat`
commitments: identity FFTs, empty sigmas, a constant commitment. -/
def ext0 : ExtOps (ZMod 7) Nat :=
  { ifft := fun _ l => l
    cosetFft := fun _ l => l
    computeSigmas := fun _ _ _ => ([], [], [], [])
    commit := fun _ => some 0
    multGen := 3
    groupGen := fun _ => 1 }

/-- A consistent one-gate composer over `ZMod 7`. -/
def c0 : Composer (ZMod 7) :=
  { q_m := [0], q_l := [1], q_r := [1], q_o := [0], q_c := [0], q_4 := [0]
    q_arith := [1], q_range := [0], q_logic := [0]
    q_fixed_group_add := [0], q_variable_group_add := [0]
    w_l := [1], w_r := [2], w_o := [0], w_4 := [0]
    n := 1, zero_var := 0, pi_pos := [0]
    perm := [(0, [(2, 0)]), (1, [(0, 0)]), (2, [(1, 0)])] }

/-- `c0` with one extra row in `q_m` only: mismatched column lengths. -/
def cbad : Composer (ZMod 7) := { c0 with q_m := [0, 0] }

/-- The all-zero blinding randomness over `ZMod 7`. -/
def br0 : BlindingRandomness (ZMod 7) := BlindingRandomness.zero

/-- The verifier key `preprocess_shared ext0 c0 [] br0` computes: padded
size 1, every commitment the constant `0`. -/
def vk0 : VKey Nat :=
  { n := 1, q_m := 0, q_l := 0, q_r := 0, q_o := 0, q_4 := 0, q_c := 0
    q_arith := 0, q_range := 0, q_logic := 0, q_fixed_group_add := 0
    q_variable_group_add := 0, left_sigma := 0, right_sigma := 0
    out_sigma := 0, fourth_sigma := 0 }

/-- A trivial gadget: leaves the fresh composer unchanged. -/
def gad0 : Composer (ZMod 7) → Except PErr (Composer (ZMod 7)) :=
  fun c => Except.ok c

/-! # Theorems

First the evaluation lemmas for the list-polynomial operations, then one
theorem per claim (with witnesses). -/

theorem polyEval_add {F : Type} [CommRing F] (p q : List F) (x : F) :
    polyEval (polyAdd p q) x = polyEval p x + polyEval q x := by
  induction p generalizing q with
  | nil => simp [polyAdd, polyEval]
  | cons a p ih =>
    cases q with
    | nil => simp [polyAdd, polyEval]
    | cons b q =>
      simp only [polyAdd, polyEval, ih]
      ring

theorem polyEval_smul {F : Type} [CommRing F] (c : F) (p : List F) (x : F) :
    polyEval (polySmul c p) x = c * polyEval p x := by
  induction p with
  | nil => simp [polySmul, polyEval]
  | cons a p ih =>
    simp only [polySmul, List.map_cons, polyEval] at ih ⊢
    rw [ih]
    ring

theorem polyEval_mul {F : Type} [CommRing F] (p q : List F) (x : F) :
    polyEval (polyMul p q) x = polyEval p x * polyEval q x := by
  induction p with
  | nil => simp [polyMul, polyEval]
  | cons a p ih =>
    simp only [polyMul, polyEval, polyEval_add, polyEval_smul, ih]
    ring

theorem polyEval_monomial {F : Type} [CommRing F] (k : Nat) (x : F) :
    polyEval (List.replicate k (0 : F) ++ [(1 : F)]) x = x ^ k := by
  induction k with
  | zero => simp [polyEval]
  | succ k ih =>
    simp only [List.replicate_succ, List.cons_append, polyEval, List.append_eq]
    rw [ih]
    ring

theorem polyEval_zH {F : Type} [CommRing F] (n : Nat) (hn : 1 ≤ n) (x : F) :
    polyEval (zHCoeffs n) x = x ^ n - 1 := by
  unfold zHCoeffs
  simp only [polyEval, polyEval_monomial]
  rw [← pow_succ' x (n - 1), Nat.sub_add_cancel hn]
  ring

/-- C2: blinding preserves on-domain values: for every polynomial `p`,
every `n ≥ 1` and blinding pair `(r0, r1)`, `add_blinder p n (r0, r1)`
equals `p + (r0 + r1·X)·(X^n − 1)` as a polynomial (here: at every
evaluation point of every commutative ring), and in particular its value
at any `x` with `x^n = 1` equals `p`'s value at `x`. -/
theorem add_blinder_preserves_domain {F : Type} [CommRing F]
    (p : List F) (n : Nat) (r : F × F) (hn : 1 ≤ n) :
    (∀ x : F, polyEval (add_blinder p n r) x =
      polyEval p x + (r.1 + r.2 * x) * (x ^ n - 1)) ∧
    (∀ x : F, x ^ n = 1 → polyEval (add_blinder p n r) x = polyEval p x) := by
  have key : ∀ x : F, polyEval (add_blinder p n r) x =
      polyEval p x + (r.1 + r.2 * x) * (x ^ n - 1) := by
    intro x
    unfold add_blinder
    rw [polyEval_add, polyEval_mul, polyEval_zH n hn]
    simp only [polyEval]
    ring
  refine ⟨key, fun x hx => ?_⟩
  rw [key x, hx]
  ring

/-- Witness for C2 over `ZMod 5` with `n = 2`, `p = 1 + 2X + 3X²`,
`r = (1, 1)` and the domain point `x = 4` (indeed `4² = 1` in `ZMod 5`). -/
theorem add_blinder_preserves_domain_witness :
    polyEval (add_blinder [(1 : ZMod 5), 2, 3] 2 (1, 1)) 4 =
      polyEval [(1 : ZMod 5), 2, 3] 4 :=
  (add_blinder_preserves_domain [(1 : ZMod 5), 2, 3] 2 (1, 1)
    (by decide)).2 4 (by decide)

/-- C3: the closed-form vanishing-polynomial evaluation is correct: when
the domain size strictly exceeds `d`, the function returns one evaluation
per domain index `i`, equal to `mult_gen^d · group_gen^(d·i) − 1`, which
is the direct evaluation of `X^d − 1` at the coset point
`mult_gen · group_gen^i`; when the size is not strictly greater than `d`
it fails (the source `assert!` panics, modelled as `none`). -/
theorem compute_vanishing_poly_over_coset_spec {F : Type} [CommRing F]
    (size : Nat) (group_gen mult_gen : F) (d : Nat) :
    (d < size →
      ∃ v, compute_vanishing_poly_over_coset size group_gen mult_gen d =
          some v ∧
        v.length = size ∧
        ∀ i, i < size →
          v.getD i 0 = mult_gen ^ d * group_gen ^ (d * i) - 1 ∧
          v.getD i 0 = (mult_gen * group_gen ^ i) ^ d - 1) ∧
    (size ≤ d →
      compute_vanishing_poly_over_coset size group_gen mult_gen d = none) := by
  constructor
  · intro hd
    refine ⟨(List.range size).map fun i =>
      mult_gen ^ d * group_gen ^ (d * i) - 1, ?_, ?_, ?_⟩
    · simp [compute_vanishing_poly_over_coset, hd]
    · simp
    · intro i hi
      have hlen : i < ((List.range size).map fun i =>
          mult_gen ^ d * group_gen ^ (d * i) - 1).length := by
        simpa using hi
      rw [List.getD_eq_getElem _ _ hlen]
      constructor
      · simp
      · simp only [List.getElem_map, List.getElem_range]
        rw [mul_pow, ← pow_mul, Nat.mul_comm i d]
  · intro hd
    simp [compute_vanishing_poly_over_coset, Nat.not_lt.mpr hd]

/-- Witness for C3 over `ZMod 7` with `size = 4 > d = 2`,
`group_gen = 2`, `mult_gen = 3`. -/
theorem compute_vanishing_poly_over_coset_witness :
    ∃ v, compute_vanishing_poly_over_coset 4 (2 : ZMod 7) 3 2 = some v ∧
      v.length = 4 ∧
      ∀ i, i < 4 →
        v.getD i 0 = (3 : ZMod 7) ^ 2 * (2 : ZMod 7) ^ (2 * i) - 1 ∧
        v.getD i 0 = ((3 : ZMod 7) * (2 : ZMod 7) ^ i) ^ 2 - 1 :=
  (compute_vanishing_poly_over_coset_spec 4 (2 : ZMod 7) 3 2).1 (by decide)

/-- C9: `BlindingRandomness::new()` draws only a single random field
element: the array-repeat expression `[[F::rand(&mut OsRng); 2]; 11]`
evaluates the sampling expression once (advancing the random stream by
exactly one element) and copies that one value into all 11 pairs, so all
22 blinding scalars equal the single drawn value. -/
theorem blinding_randomness_new_single_draw {F : Type}
    (stream : Nat → F) (cursor : Nat) :
    (BlindingRandomness.new stream cursor).2 = cursor + 1 ∧
    (BlindingRandomness.new stream cursor).1.r.length = 11 ∧
    ∀ pr ∈ (BlindingRandomness.new stream cursor).1.r,
      pr.1 = stream cursor ∧ pr.2 = stream cursor := by
  refine ⟨rfl, by simp [BlindingRandomness.new], fun pr hpr => ?_⟩
  have hmem : pr ∈ List.replicate 11 (stream cursor, stream cursor) := hpr
  rw [List.eq_of_mem_replicate hmem]
  exact ⟨rfl, rfl⟩

/-- Witness for C9 over `ZMod 5` with the stream `n ↦ n + 1` at cursor
`0`: the pair at index 3 exists and both components equal the single
drawn value `1`. -/
theorem blinding_randomness_new_single_draw_witness :
    ((2, 2) : ZMod 5 × ZMod 5).1 = (fun n => (n : ZMod 5) + 2) 0 ∧
    ((2, 2) : ZMod 5 × ZMod 5).2 = (fun n => (n : ZMod 5) + 2) 0 :=
  (blinding_randomness_new_single_draw (fun n => (n : ZMod 5) + 2) 0).2.2
    (2, 2) (by decide)

theorem pad_zero {F : Type} [CommRing F] (c : Composer F) : pad c 0 = c := by
  simp [pad]

theorem domSizeGo_ge (m : Nat) :
    ∀ fuel acc, m ≤ acc * 2 ^ fuel → m ≤ domSizeGo m fuel acc := by
  intro fuel
  induction fuel with
  | zero =>
    intro acc h
    simpa [domSizeGo] using h
  | succ fuel ih =>
    intro acc h
    unfold domSizeGo
    split_ifs with hle
    · exact hle
    · refine ih (2 * acc) ?_
      have : acc * 2 ^ (fuel + 1) = 2 * acc * 2 ^ fuel := by ring
      omega

theorem domSize_ge {m : Nat} : m ≤ domSize m := by
  refine domSizeGo_ge m m 1 ?_
  have := Nat.lt_two_pow m
  omega

theorem domSizeGo_pow (k : Nat) :
    ∀ fuel j, 2 ^ j ≤ 2 ^ k → 2 ^ k ≤ 2 ^ j * 2 ^ fuel →
      domSizeGo (2 ^ k) fuel (2 ^ j) = 2 ^ k := by
  intro fuel
  induction fuel with
  | zero =>
    intro j h1 h2
    simp only [domSizeGo]
    omega
  | succ fuel ih =>
    intro j h1 h2
    unfold domSizeGo
    split_ifs with hle
    · omega
    · have hjk : j < k := by
        by_contra hc
        have : 2 ^ k ≤ 2 ^ j :=
          Nat.pow_le_pow_right (by norm_num) (by omega)
        omega
      have h2j : (2 : Nat) * 2 ^ j = 2 ^ (j + 1) := by
        rw [Nat.pow_succ]
        ring
      rw [h2j]
      refine ih (j + 1) ?_ ?_
      · exact Nat.pow_le_pow_right (by norm_num) (by omega)
      · have : (2 : Nat) ^ j * 2 ^ (fuel + 1) = 2 ^ (j + 1) * 2 ^ fuel := by
          rw [Nat.pow_succ, Nat.pow_succ]
          ring
        omega

theorem domSize_pow (k : Nat) : domSize (2 ^ k) = 2 ^ k := by
  have h0 : (1 : Nat) = 2 ^ 0 := rfl
  unfold domSize
  rw [h0]
  refine domSizeGo_pow k (2 ^ k) 0 (Nat.one_le_two_pow) ?_
  have hk : k ≤ 2 ^ k := (Nat.lt_two_pow k).le
  have : (2 : Nat) ^ k ≤ 2 ^ (2 ^ k) :=
    Nat.pow_le_pow_right (by norm_num) hk
  omega

/-- C7: `pad diff` appends exactly `diff` additive-identity entries to
each of the 11 selector columns and `diff` copies of the zero variable to
each of the 4 wire columns and increases `n` by `diff` (it is a pure
function of the composer state, hence deterministic); `pad 0` leaves the
composer unchanged; the preprocessing pad step always brings `n` to the
evaluation-domain size (the next power of two), and is the identity on a
composer whose gate count is already a power of two. -/
theorem pad_appends_and_idempotent {F : Type} [CommRing F]
    (c : Composer F) (diff : Nat) :
    ((pad c diff).q_m = c.q_m ++ List.replicate diff 0 ∧
     (pad c diff).q_l = c.q_l ++ List.replicate diff 0 ∧
     (pad c diff).q_r = c.q_r ++ List.replicate diff 0 ∧
     (pad c diff).q_o = c.q_o ++ List.replicate diff 0 ∧
     (pad c diff).q_c = c.q_c ++ List.replicate diff 0 ∧
     (pad c diff).q_4 = c.q_4 ++ List.replicate diff 0 ∧
     (pad c diff).q_arith = c.q_arith ++ List.replicate diff 0 ∧
     (pad c diff).q_range = c.q_range ++ List.replicate diff 0 ∧
     (pad c diff).q_logic = c.q_logic ++ List.replicate diff 0 ∧
     (pad c diff).q_fixed_group_add =
       c.q_fixed_group_add ++ List.replicate diff 0 ∧
     (pad c diff).q_variable_group_add =
       c.q_variable_group_add ++ List.replicate diff 0) ∧
    ((pad c diff).w_l = c.w_l ++ List.replicate diff c.zero_var ∧
     (pad c diff).w_r = c.w_r ++ List.replicate diff c.zero_var ∧
     (pad c diff).w_o = c.w_o ++ List.replicate diff c.zero_var ∧
     (pad c diff).w_4 = c.w_4 ++ List.replicate diff c.zero_var) ∧
    (pad c diff).n = c.n + diff ∧
    pad c 0 = c ∧
    (pad_step c).n = domSize c.n ∧
    ((∃ k, c.n = 2 ^ k) → pad_step c = c) := by
  refine ⟨⟨rfl, rfl, rfl, rfl, rfl, rfl, rfl, rfl, rfl, rfl, rfl⟩,
    ⟨rfl, rfl, rfl, rfl⟩, rfl, pad_zero c, ?_, ?_⟩
  · show c.n + (domSize c.n - c.n) = domSize c.n
    have := domSize_ge (m := c.n)
    omega
  · rintro ⟨k, hk⟩
    have hdom : domSize c.n = c.n := by
      rw [hk, domSize_pow]
    unfold pad_step Composer.circuit_size
    rw [hdom, Nat.sub_self, pad_zero]

/-- Witness for C7 at a concrete composer (`c0`, a power-of-two gate
count of `1`) and `diff = 2`. -/
theorem pad_appends_and_idempotent_witness :
    (pad c0 2).n = c0.n + 2 ∧ pad_step c0 = c0 :=
  ⟨(pad_appends_and_idempotent c0 2).2.2.1,
   (pad_appends_and_idempotent c0 2).2.2.2.2.2 ⟨0, rfl⟩⟩

/-- C8: padding frames everything but the column tails and `n`: the
public-input positions, the permutation structure (and the zero variable)
are untouched, and the pre-existing entries of every selector and wire
column — in particular, for a length-consistent composer, the first `n`
entries of every column — are unchanged. -/
theorem pad_frame {F : Type} [CommRing F] (c : Composer F) (diff : Nat) :
    (pad c diff).pi_pos = c.pi_pos ∧
    (pad c diff).perm = c.perm ∧
    (pad c diff).zero_var = c.zero_var ∧
    ((pad c diff).q_m.take c.q_m.length = c.q_m ∧
     (pad c diff).q_l.take c.q_l.length = c.q_l ∧
     (pad c diff).q_r.take c.q_r.length = c.q_r ∧
     (pad c diff).q_o.take c.q_o.length = c.q_o ∧
     (pad c diff).q_c.take c.q_c.length = c.q_c ∧
     (pad c diff).q_4.take c.q_4.length = c.q_4 ∧
     (pad c diff).q_arith.take c.q_arith.length = c.q_arith ∧
     (pad c diff).q_range.take c.q_range.length = c.q_range ∧
     (pad c diff).q_logic.take c.q_logic.length = c.q_logic ∧
     (pad c diff).q_fixed_group_add.take c.q_fixed_group_add.length =
       c.q_fixed_group_add ∧
     (pad c diff).q_variable_group_add.take
       c.q_variable_group_add.length = c.q_variable_group_add ∧
     (pad c diff).w_l.take c.w_l.length = c.w_l ∧
     (pad c diff).w_r.take c.w_r.length = c.w_r ∧
     (pad c diff).w_o.take c.w_o.length = c.w_o ∧
     (pad c diff).w_4.take c.w_4.length = c.w_4) ∧
    ((c.q_m.length = c.n ∧ c.q_l.length = c.n ∧ c.q_r.length = c.n ∧
      c.q_o.length = c.n ∧ c.q_c.length = c.n ∧ c.q_4.length = c.n ∧
      c.q_arith.length = c.n ∧ c.q_range.length = c.n ∧
      c.q_logic.length = c.n ∧ c.q_fixed_group_add.length = c.n ∧
      c.q_variable_group_add.length = c.n ∧ c.w_l.length = c.n ∧
      c.w_r.length = c.n ∧ c.w_o.length = c.n ∧ c.w_4.length = c.n) →
     ((pad c diff).q_m.take c.n = c.q_m ∧
      (pad c diff).q_l.take c.n = c.q_l ∧
      (pad c diff).q_r.take c.n = c.q_r ∧
      (pad c diff).q_o.take c.n = c.q_o ∧
      (pad c diff).q_c.take c.n = c.q_c ∧
      (pad c diff).q_4.take c.n = c.q_4 ∧
      (pad c diff).q_arith.take c.n = c.q_arith ∧
      (pad c diff).q_range.take c.n = c.q_range ∧
      (pad c diff).q_logic.take c.n = c.q_logic ∧
      (pad c diff).q_fixed_group_add.take c.n = c.q_fixed_group_add ∧
      (pad c diff).q_variable_group_add.take c.n =
        c.q_variable_group_add ∧
      (pad c diff).w_l.take c.n = c.w_l ∧
      (pad c diff).w_r.take c.n = c.w_r ∧
      (pad c diff).w_o.take c.n = c.w_o ∧
      (pad c diff).w_4.take c.n = c.w_4)) := by
  have htakes :
      (pad c diff).q_m.take c.q_m.length = c.q_m ∧
      (pad c diff).q_l.take c.q_l.length = c.q_l ∧
      (pad c diff).q_r.take c.q_r.length = c.q_r ∧
      (pad c diff).q_o.take c.q_o.length = c.q_o ∧
      (pad c diff).q_c.take c.q_c.length = c.q_c ∧
      (pad c diff).q_4.take c.q_4.length = c.q_4 ∧
      (pad c diff).q_arith.take c.q_arith.length = c.q_arith ∧
      (pad c diff).q_range.take c.q_range.length = c.q_range ∧
      (pad c diff).q_logic.take c.q_logic.length = c.q_logic ∧
      (pad c diff).q_fixed_group_add.take c.q_fixed_group_add.length =
        c.q_fixed_group_add ∧
      (pad c diff).q_variable_group_add.take
        c.q_variable_group_add.length = c.q_variable_group_add ∧
      (pad c diff).w_l.take c.w_l.length = c.w_l ∧
      (pad c diff).w_r.take c.w_r.length = c.w_r ∧
      (pad c diff).w_o.take c.w_o.length = c.w_o ∧
      (pad c diff).w_4.take c.w_4.length = c.w_4 := by
    refine ⟨?_, ?_, ?_, ?_, ?_, ?_, ?_, ?_, ?_, ?_, ?_, ?_, ?_, ?_, ?_⟩ <;>
      exact List.take_left _ _
  refine ⟨rfl, rfl, rfl, htakes, ?_⟩
  rintro ⟨h1, h2, h3, h4, h5, h6, h7, h8, h9, h10, h11, h12, h13, h14, h15⟩
  refine ⟨?_, ?_, ?_, ?_, ?_, ?_, ?_, ?_, ?_, ?_, ?_, ?_, ?_, ?_, ?_⟩
  · rw [← h1]; exact htakes.1
  · rw [← h2]; exact htakes.2.1
  · rw [← h3]; exact htakes.2.2.1
  · rw [← h4]; exact htakes.2.2.2.1
  · rw [← h5]; exact htakes.2.2.2.2.1
  · rw [← h6]; exact htakes.2.2.2.2.2.1
  · rw [← h7]; exact htakes.2.2.2.2.2.2.1
  · rw [← h8]; exact htakes.2.2.2.2.2.2.2.1
  · rw [← h9]; exact htakes.2.2.2.2.2.2.2.2.1
  · rw [← h10]; exact htakes.2.2.2.2.2.2.2.2.2.1
  · rw [← h11]; exact htakes.2.2.2.2.2.2.2.2.2.2.1
  · rw [← h12]; exact htakes.2.2.2.2.2.2.2.2.2.2.2.1
  · rw [← h13]; exact htakes.2.2.2.2.2.2.2.2.2.2.2.2.1
  · rw [← h14]; exact htakes.2.2.2.2.2.2.2.2.2.2.2.2.2.1
  · rw [← h15]; exact htakes.2.2.2.2.2.2.2.2.2.2.2.2.2.2

/-- Witness for C8 at the concrete length-consistent composer `c0` and
`diff = 3`. -/
theorem pad_frame_witness :
    (pad c0 3).pi_pos = c0.pi_pos ∧ (pad c0 3).perm = c0.perm ∧
    (pad c0 3).q_m.take c0.n = c0.q_m ∧ (pad c0 3).w_4.take c0.n = c0.w_4 :=
  ⟨(pad_frame c0 3).1, (pad_frame c0 3).2.1,
   ((pad_frame c0 3).2.2.2.2 (by decide)).1,
   ((pad_frame c0 3).2.2.2.2 (by decide)).2.2.2.2.2.2.2.2.2.2.2.2.2.2⟩

theorem check_poly_ok_iff_anchor {F : Type} (c : Composer F) :
    check_poly_same_len c = Except.ok () ↔
      (c.q_o.length = c.q_m.length ∧ c.q_l.length = c.q_m.length ∧
       c.q_r.length = c.q_m.length ∧ c.q_c.length = c.q_m.length ∧
       c.q_4.length = c.q_m.length ∧ c.q_arith.length = c.q_m.length ∧
       c.q_range.length = c.q_m.length ∧ c.q_logic.length = c.q_m.length ∧
       c.q_fixed_group_add.length = c.q_m.length ∧
       c.q_variable_group_add.length = c.q_m.length ∧
       c.w_l.length = c.q_m.length ∧ c.w_r.length = c.q_m.length ∧
       c.w_o.length = c.q_m.length ∧ c.w_4.length = c.q_m.length) := by
  unfold check_poly_same_len
  split_ifs with h
  · exact ⟨fun _ => h, fun _ => rfl⟩
  · exact iff_of_false (by simp) h

theorem anchor_iff_pairwise {F : Type} (c : Composer F) :
    (c.q_o.length = c.q_m.length ∧ c.q_l.length = c.q_m.length ∧
     c.q_r.length = c.q_m.length ∧ c.q_c.length = c.q_m.length ∧
     c.q_4.length = c.q_m.length ∧ c.q_arith.length = c.q_m.length ∧
     c.q_range.length = c.q_m.length ∧ c.q_logic.length = c.q_m.length ∧
     c.q_fixed_group_add.length = c.q_m.length ∧
     c.q_variable_group_add.length = c.q_m.length ∧
     c.w_l.length = c.q_m.length ∧ c.w_r.length = c.q_m.length ∧
     c.w_o.length = c.q_m.length ∧ c.w_4.length = c.q_m.length) ↔
      ∀ a ∈ colLens c, ∀ b ∈ colLens c, a = b := by
  constructor
  · rintro ⟨h1, h2, h3, h4, h5, h6, h7, h8, h9, h10, h11, h12, h13, h14⟩
      a ha b hb
    have key : ∀ x ∈ colLens c, x = c.q_m.length := by
      simp only [colLens, List.forall_mem_cons]
      exact ⟨trivial, h2, h3, h1, h4, h5, h6, h7, h8, h9, h10, h11, h12,
        h13, h14, fun x hx => absurd hx (List.not_mem_nil x)⟩
    rw [key a ha, key b hb]
  · intro h
    have key : ∀ x ∈ colLens c, x = c.q_m.length := fun x hx =>
      h x hx c.q_m.length (by simp [colLens])
    refine ⟨?_, ?_, ?_, ?_, ?_, ?_, ?_, ?_, ?_, ?_, ?_, ?_, ?_, ?_⟩ <;>
      exact key _ (by simp [colLens])

/-- C1: the preprocessing consistency check succeeds exactly when all 15
columns (11 selectors and 4 wires) have equal length; on a composer with
unequal column lengths, `preprocess_shared` fails with
`MismatchedPolyLen` before the pad step runs, returning the composer (and
the transcript) unchanged. -/
theorem check_poly_same_len_spec {F C : Type} [CommRing F]
    (c : Composer F) :
    (check_poly_same_len c = Except.ok () ↔
      ∀ a ∈ colLens c, ∀ b ∈ colLens c, a = b) ∧
    (∀ (ext : ExtOps F C) (tr : List C) (br : BlindingRandomness F),
      ¬(∀ a ∈ colLens c, ∀ b ∈ colLens c, a = b) →
      preprocess_shared ext c tr br =
        (Except.error PErr.MismatchedPolyLen, c, tr)) := by
  have hiff := (check_poly_ok_iff_anchor c).trans (anchor_iff_pairwise c)
  refine ⟨hiff, fun ext tr br hne => ?_⟩
  have hchk : check_poly_same_len c = Except.error PErr.MismatchedPolyLen := by
    revert hiff
    unfold check_poly_same_len
    split_ifs with h
    · intro hiff
      exact absurd (hiff.mp rfl) hne
    · intro _
      rfl
  unfold preprocess_shared
  rw [hchk]

/-- Witness for C1 at the mismatched composer `cbad` (`q_m` has 2 rows,
all other columns 1): the check rejects and `preprocess_shared` returns
the `MismatchedPolyLen` error with the composer untouched. -/
theorem check_poly_same_len_spec_witness :
    preprocess_shared ext0 cbad [] br0 =
      (Except.error PErr.MismatchedPolyLen, cbad, []) :=
  (check_poly_same_len_spec cbad).2 ext0 [] br0 (by decide)

/-- C6: prover-side and verifier-side preprocessing agree: for identical
composer states, the same commit key and external collaborators, the same
blinding randomness and identical initial transcripts, `preprocess_prover`
and `preprocess_verifier` both funnel through `preprocess_shared`, so they
leave the composer and the transcript in identical final states, fail
identically, and the `VerifierKey` (holding the selector/sigma
commitments) the verifier side returns is exactly the one the shared step
— and hence the prover side — computed. -/
theorem preprocess_prover_verifier_agree {F C : Type} [CommRing F]
    (ext : ExtOps F C) (c : Composer F) (tr : List C)
    (br : BlindingRandomness F) :
    (preprocess_prover ext c tr br).2 =
      (preprocess_verifier ext c tr br).2 ∧
    (∀ e, (preprocess_prover ext c tr br).1 = Except.error e ↔
      (preprocess_verifier ext c tr br).1 = Except.error e) ∧
    (∀ vk, (preprocess_verifier ext c tr br).1 = Except.ok vk →
      (∃ sel d, (preprocess_shared ext c tr br).1 =
        Except.ok (vk, sel, d)) ∧
      ∃ pk, (preprocess_prover ext c tr br).1 = Except.ok pk ∧
        ∃ sel d, (preprocess_shared ext c tr br).1 =
          Except.ok (vk, sel, d) ∧ pk.polys = sel ∧ pk.n = d) := by
  rcases hsh : preprocess_shared ext c tr br with ⟨res, c', tr'⟩
  cases res with
  | error e =>
    refine ⟨?_, ?_, ?_⟩
    · simp [preprocess_prover, preprocess_verifier, hsh]
    · intro e'
      simp [preprocess_prover, preprocess_verifier, hsh]
    · intro vk hvk
      simp [preprocess_verifier, hsh] at hvk
  | ok out =>
    rcases out with ⟨vk, sel, d⟩
    refine ⟨?_, ?_, ?_⟩
    · simp [preprocess_prover, preprocess_verifier, hsh]
    · intro e'
      simp [preprocess_prover, preprocess_verifier, hsh]
    · intro vk' hvk'
      have hvkeq : vk = vk' := by
        simpa [preprocess_verifier, hsh] using hvk'
      subst hvkeq
      refine ⟨⟨sel, d, by simp [hsh]⟩, ?_⟩
      refine ⟨{ n := d
                polys := sel
                evals_8n :=
                  [ext.cosetFft (8 * d) sel.q_m,
                   ext.cosetFft (8 * d) sel.q_l,
                   ext.cosetFft (8 * d) sel.q_r,
                   ext.cosetFft (8 * d) sel.q_o,
                   ext.cosetFft (8 * d) sel.q_c,
                   ext.cosetFft (8 * d) sel.q_4,
                   ext.cosetFft (8 * d) sel.q_arith,
                   ext.cosetFft (8 * d) sel.q_range,
                   ext.cosetFft (8 * d) sel.q_logic,
                   ext.cosetFft (8 * d) sel.q_fixed_group_add,
                   ext.cosetFft (8 * d) sel.q_variable_group_add,
                   ext.cosetFft (8 * d) sel.left_sigma,
                   ext.cosetFft (8 * d) sel.right_sigma,
                   ext.cosetFft (8 * d) sel.out_sigma,
                   ext.cosetFft (8 * d) sel.fourth_sigma]
                linear_eval_8n := ext.cosetFft (8 * d) [0, 1]
                v_h_coset_8n :=
                  compute_vanishing_poly_over_coset (8 * d)
                    (ext.groupGen (8 * d)) ext.multGen d },
        ?_, sel, d, by simp [hsh], rfl, rfl⟩
      simp [preprocess_prover, hsh]

/-- Witness for C6 at the concrete collaborators `ext0`, composer `c0`,
empty transcript and zero blinding: the verifier side returns `vk0` and
the shared step computed that same key. -/
theorem preprocess_prover_verifier_agree_witness :
    (∃ sel d, (preprocess_shared ext0 c0 [] br0).1 =
      Except.ok (vk0, sel, d)) ∧
    ∃ pk, (preprocess_prover ext0 c0 [] br0).1 = Except.ok pk ∧
      ∃ sel d, (preprocess_shared ext0 c0 [] br0).1 =
        Except.ok (vk0, sel, d) ∧ pk.polys = sel ∧ pk.n = d :=
  (preprocess_prover_verifier_agree ext0 c0 [] br0).2.2 vk0 (by rfl)

/-- C5 (divergence): with universal parameters holding fewer than
`padded_circuit_size + 6` elements, trimming fails — and `compile_wbr`,
`compile`, `gen_proof` and `verify_proof` all call `.unwrap()` on the trim
result, so every one of them panics instead of returning the trimming
error as a typed result (contradicting spec §6/§7, which promise a typed
error surfaced to the caller). -/
theorem trim_too_small_panics {F C α : Type} [CommRing F]
    (uSize padded_circuit_size : Nat)
    (hsmall : uSize < padded_circuit_size + 6) :
    (∀ (ext : ExtOps F C) (gadget : Composer F → Except PErr (Composer F))
       (br : BlindingRandomness F),
      compile_wbr ext uSize padded_circuit_size gadget br =
        POut.panicked) ∧
    (∀ (ext : ExtOps F C) (gadget : Composer F → Except PErr (Composer F)),
      compile ext uSize padded_circuit_size gadget = POut.panicked) ∧
    (∀ prove : Nat → POut α,
      gen_proof uSize padded_circuit_size prove = POut.panicked) ∧
    (∀ (vals : List (List F)) (pos : List Nat)
       (verify : List F → Except PErr Unit),
      verify_proof uSize padded_circuit_size vals pos verify =
        POut.panicked) := by
  have htrim : trim_powers uSize (padded_circuit_size + 6) =
      Except.error () := by
    unfold trim_powers
    rw [if_neg (by omega)]
  refine ⟨?_, ?_, ?_, ?_⟩
  · intro ext gadget br
    unfold compile_wbr
    rw [htrim]
  · intro ext gadget
    unfold compile compile_wbr
    rw [htrim]
  · intro prove
    unfold gen_proof
    rw [htrim]
  · intro vals pos verify
    unfold verify_proof
    rw [htrim]

/-- Witness for C5 at `padded_circuit_size = 8` and universal parameters
with only `8 < 8 + 6` elements: all four entry points panic. -/
theorem trim_too_small_panics_witness :
    compile_wbr ext0 8 8 gad0 br0 = POut.panicked ∧
    compile ext0 8 8 gad0 = POut.panicked ∧
    gen_proof 8 8 (fun _ => POut.ok ()) = POut.panicked ∧
    verify_proof 8 8 [[(1 : ZMod 7)]] [0] (fun _ => Except.ok ()) =
      POut.panicked :=
  ⟨(trim_too_small_panics (C := Nat) (α := Unit) 8 8 (by omega)).1 ext0
      gad0 br0,
   (trim_too_small_panics (F := ZMod 7) (C := Nat) (α := Unit) 8 8
      (by omega)).2.1 ext0 gad0,
   (trim_too_small_panics (F := ZMod 7) (C := Nat) (α := Unit) 8 8
      (by omega)).2.2.1 (fun _ => POut.ok ()),
   (trim_too_small_panics (F := ZMod 7) (C := Nat) (α := Unit) 8 8
      (by omega)).2.2.2 [[(1 : ZMod 7)]] [0] (fun _ => Except.ok ())⟩

theorem getD_set_ne {α : Type} (l : List α) (i j : Nat) (a d : α)
    (h : i ≠ j) : (l.set i a).getD j d = l.getD j d := by
  simp [List.getD_eq_getElem?_getD, List.getElem?_set_ne h]

theorem getD_set_self {α : Type} (l : List α) (i : Nat) (a d : α)
    (h : i < l.length) : (l.set i a).getD i d = a := by
  simp [List.getD_eq_getElem?_getD, List.getElem?_set_self h]

/-- The scatter loop at the heart of `build_pi`: folding
`pi[pos] = -value` over the (value, position) pairs. When every position
is in bounds the fold succeeds, preserves the length, leaves untouched
indices unchanged, and (for distinct positions) stores each negated value
at its position. -/
theorem build_pi_fold {F : Type} [CommRing F] :
    ∀ (pairs : List (F × Nat)) (acc : List F),
      (∀ vp ∈ pairs, vp.2 < acc.length) →
      ∃ res,
        List.foldlM
          (fun pi vp =>
            if vp.2 < pi.length then some (pi.set vp.2 (-vp.1)) else none)
          acc pairs = some res ∧
        res.length = acc.length ∧
        (∀ j, j ∉ pairs.map Prod.snd → res.getD j 0 = acc.getD j 0) ∧
        ((pairs.map Prod.snd).Nodup →
          ∀ vp ∈ pairs, res.getD vp.2 0 = -vp.1) := by
  intro pairs
  induction pairs with
  | nil =>
    intro acc _
    exact ⟨acc, rfl, rfl, fun j _ => rfl, fun _ vp hvp => absurd hvp
      (List.not_mem_nil vp)⟩
  | cons vp rest ih =>
    intro acc hlt
    have hvp : vp.2 < acc.length := hlt vp (List.mem_cons_self vp rest)
    have hlt' : ∀ wp ∈ rest, wp.2 < (acc.set vp.2 (-vp.1)).length := by
      intro wp hwp
      simpa [List.length_set] using
        hlt wp (List.mem_cons_of_mem vp hwp)
    obtain ⟨res, hfold, hlen, hframe, hvals⟩ :=
      ih (acc.set vp.2 (-vp.1)) hlt'
    refine ⟨res, ?_, ?_, ?_, ?_⟩
    · simp only [List.foldlM_cons, if_pos hvp]
      simpa using hfold
    · rw [hlen, List.length_set]
    · intro j hj
      simp only [List.map_cons, List.mem_cons, not_or] at hj
      rw [hframe j hj.2, getD_set_ne acc vp.2 j _ _ (fun h => hj.1 h.symm)]
    · intro hnd wp hwp
      simp only [List.map_cons, List.nodup_cons] at hnd
      rcases List.mem_cons.mp hwp with heq | hmem
      · subst heq
        rw [hframe wp.2 hnd.1, getD_set_self acc wp.2 _ _ hvp]
      · exact hvals hnd.2 wp hmem

/-- C4: `build_pi` produces the dense public-input vector: when the
flattened value count matches the position count, the positions are
distinct, and every position is below `trim_size`, `build_pi` returns a
vector of length exactly `trim_size` whose entry at the `i`-th position is
the negation of the `i`-th flattened value, every other entry being the
additive identity. -/
theorem build_pi_dense_spec {F : Type} [CommRing F]
    (vals : List (List F)) (pos : List Nat) (trim_size : Nat)
    (hcount : (List.flatten vals).length = pos.length)
    (hnodup : pos.Nodup)
    (hbound : ∀ p ∈ pos, p < trim_size) :
    ∃ pi, build_pi vals pos trim_size = some pi ∧
      pi.length = trim_size ∧
      (∀ i, i < pos.length →
        pi.getD (pos.getD i 0) 0 = -((List.flatten vals).getD i 0)) ∧
      (∀ j, j < trim_size → j ∉ pos → pi.getD j 0 = 0) := by
  have hmap : ((List.flatten vals).zip pos).map Prod.snd = pos :=
    List.map_snd_zip _ _ (le_of_eq hcount.symm)
  have hlt : ∀ vp ∈ (List.flatten vals).zip pos,
      vp.2 < (List.replicate trim_size (0 : F)).length := by
    intro wp hwp
    have : wp.2 ∈ pos := by
      rw [← hmap]
      exact List.mem_map_of_mem Prod.snd hwp
    simpa using hbound wp.2 this
  obtain ⟨res, hfold, hlen, hframe, hvals⟩ :=
    build_pi_fold ((List.flatten vals).zip pos)
      (List.replicate trim_size (0 : F)) hlt
  refine ⟨res, ?_, ?_, ?_, ?_⟩
  · unfold build_pi
    exact hfold
  · simpa using hlen
  · intro i hi
    have hif : i < (List.flatten vals).length := by
      rw [hcount]
      exact hi
    have hizip : i < ((List.flatten vals).zip pos).length := by
      rw [List.length_zip, hcount, Nat.min_self]
      exact hi
    have hpair : ((List.flatten vals).zip pos).get ⟨i, hizip⟩ =
        ((List.flatten vals).get ⟨i, hif⟩, pos.get ⟨i, hi⟩) := by
      simp [List.getElem_zip]
    have hmem : ((List.flatten vals).get ⟨i, hif⟩, pos.get ⟨i, hi⟩) ∈
        (List.flatten vals).zip pos := by
      rw [← hpair]
      exact List.get_mem _ _ hizip
    have := hvals (by rwa [hmap]) _ hmem
    rw [List.getD_eq_getElem pos 0 hi,
      List.getD_eq_getElem (List.flatten vals) 0 hif]
    exact this
  · intro j hj hjpos
    have := hframe j (by rwa [hmap])
    rw [this, List.getD_eq_getElem _ _ (by simpa using hj)]
    simp

/-- Witness for C4 over `ZMod 7`: values `[[2], [3]]`, positions
`[0, 2]`, `trim_size = 4`. -/
theorem build_pi_dense_spec_witness :
    ∃ pi, build_pi [[(2 : ZMod 7)], [3]] [0, 2] 4 = some pi ∧
      pi.length = 4 ∧
      (∀ i, i < 2 →
        pi.getD ([0, 2].getD i 0) 0 =
          -((List.flatten [[(2 : ZMod 7)], [3]]).getD i 0)) ∧
      (∀ j, j < 4 → j ∉ [0, 2] → pi.getD j 0 = 0) := by
  have h := build_pi_dense_spec [[(2 : ZMod 7)], [3]] [0, 2] 4
    (by decide) (by decide) (by decide)
  simpa using h

/-- C10: `build_pi` indexes the dense vector without a bounds guard: on a
concrete input whose position `5` is not below `trim_size = 3` it panics
(modelled as `none`) — and so does `verify_proof`, which calls it with
`trim_size` equal to the verifier key's padded circuit size — while under
the precondition that every position is strictly below `trim_size`
the indexing is safe and `build_pi` returns a vector. -/
theorem build_pi_out_of_bounds_panics {F : Type} [CommRing F] :
    build_pi [[(1 : ZMod 7)]] [5] 3 = none ∧
    verify_proof 20 3 [[(1 : ZMod 7)]] [5] (fun _ => Except.ok ()) =
      POut.panicked ∧
    ∀ (vals : List (List F)) (pos : List Nat) (trim_size : Nat),
      (∀ p ∈ pos, p < trim_size) →
      ∃ v, build_pi vals pos trim_size = some v := by
  refine ⟨by decide, by decide, fun vals pos trim_size hbound => ?_⟩
  have hlt : ∀ vp ∈ (List.flatten vals).zip pos,
      vp.2 < (List.replicate trim_size (0 : F)).length := by
    intro wp hwp
    have : wp.2 ∈ pos := List.of_mem_zip hwp |>.2
    simpa using hbound wp.2 this
  obtain ⟨res, hfold, -, -, -⟩ :=
    build_pi_fold ((List.flatten vals).zip pos)
      (List.replicate trim_size (0 : F)) hlt
  exact ⟨res, hfold⟩

/-- Witness for C10's safety part over `ZMod 7`: with both positions
below `trim_size = 4` the fold succeeds. -/
theorem build_pi_out_of_bounds_panics_witness :
    ∃ v, build_pi [[(2 : ZMod 7)], [3]] [1, 3] 4 = some v :=
  (build_pi_out_of_bounds_panics (F := ZMod 7)).2.2
    [[(2 : ZMod 7)], [3]] [1, 3] 4 (by decide)

end ArkPlonk
